import Mathlib

/-!
# Verification of the aniper executor core

A shallow embedding of the aniper trading executor (Rust sources under
`src/executor/src/`) together with theorems settling the specification's
claims about it.

Modelling conventions:
* Rust `f64`/`f32` arithmetic is embedded as exact rational (`ℚ`) arithmetic;
  `u32`/`u64`/`usize` as `ℕ` with explicit truncation/saturation where the
  source casts.
* Rust `String` values are embedded as `List Char` so that textual scanning
  (`find`, slicing, `split_whitespace`) can be reasoned about directly.
* External effects (the serde JSON parse, the Redis reads, the balance
  oracle) are passed in as explicit inputs: e.g. a balance fetch outcome is
  an `Option ℚ` (`none` = the RPC call failed), a per-sample Redis read of
  `risk:slip_k` is an `Option ℚ` (`none` = key unset or unreadable).
* The long-lived async loops (risk guards, trader loop) are embedded as
  state machines folded over the list of inputs they would receive, in
  receive order, which is how the source consumes them (each loop is a
  single task; samples/readings are handled strictly sequentially).
-/

namespace Aniper

/-! ## Data model (`ws_feed.rs`, `risk.rs`) -/

/-- The `Platform` enum from `ws_feed.rs`. -/
inductive Platform
  | PumpFun
  | LetsBonk
  deriving DecidableEq, Repr

/-- The `LaunchEvent` struct from `ws_feed.rs`.  Strings are `List Char`,
`holders_60 : u32` is `ℕ`, `lp : f64` is `ℚ`. -/
structure LaunchEvent where
  mint : List Char
  creator : List Char
  holders_60 : ℕ
  lp : ℚ
  platform : Platform
  amount_usdc : Option ℚ
  max_slippage : Option ℚ
  deriving DecidableEq, Repr

/-- The `KillSwitch` enum from `risk.rs`. -/
inductive KillSwitch
  | EquityFloor
  | Slippage
  | PortfolioStopLoss
  deriving DecidableEq, Repr

/-! ## Classifier (`classifier.rs`)

```rust
pub fn score(event: &LaunchEvent) -> f32 {
    if event.holders_60 >= 50 && event.lp >= 0.5 { 0.9 } else { 0.1 }
}
``` -/

/-- The `score` from `classifier.rs` (exact-rational embedding of the `f32`
literals `0.9`/`0.1` and of the threshold `0.5`). -/
def score (event : LaunchEvent) : ℚ :=
  if 50 ≤ event.holders_60 ∧ (1 : ℚ)/2 ≤ event.lp then 9/10 else 1/10

/-! ## Compliance (`compliance.rs`) -/

/-- The denylist parse from `compliance.rs`: the `OFAC_DENYLIST` env value is
split on commas, entries trimmed, empty entries dropped.  Trimming is
embedded as dropping leading/trailing whitespace characters. -/
def parseDenylist (raw : List Char) : List (List Char) :=
  ((raw.splitOn ',').map
      (fun t => (t.dropWhile Char.isWhitespace).reverse.dropWhile
        Char.isWhitespace |>.reverse)).filter (fun s => !s.isEmpty)

/-- The `is_sanctioned` from `compliance.rs`: set membership in the denylist. -/
def is_sanctioned (denylist : List (List Char)) (addr : List Char) : Bool :=
  denylist.contains addr

/-! ## Position sizing (`trader.rs::execute_trade`, lines 512-516)

```rust
let balance_usdc = crate::risk::get_balance_usdc().await.unwrap_or(1000.0);
let position_size_usdc = balance_usdc * (risk_config.position_size_percent / 100.0);
let position_size_lamports = (position_size_usdc * 1_000_000.0) as u64;
```

The balance-oracle call is an external effect; its outcome is passed in as
`balanceFetch : Option ℚ` (`none` = the fetch failed). -/

/-- The `RiskConfig` struct from `trader.rs`. -/
structure RiskConfig where
  position_size_percent : ℚ
  liquidity_threshold_usd : ℚ
  auto_sell_profit_multiplier : ℚ
  auto_sell_loss_percent : ℚ
  deriving DecidableEq, Repr

/-- The position size in USDC computed by `execute_trade`:
`get_balance_usdc().await.unwrap_or(1000.0)` times the percentage. -/
def position_size_usdc (balanceFetch : Option ℚ) (cfg : RiskConfig) : ℚ :=
  (balanceFetch.getD 1000) * (cfg.position_size_percent / 100)

/-- The `(x * 1_000_000.0) as u64` cast: an `f64`-to-`u64` `as` cast in Rust
truncates toward zero and saturates, so negative values map to `0` and
values above `u64::MAX` map to `u64::MAX`. -/
def position_size_lamports (position_size_usdc : ℚ) : ℕ :=
  min (⌊position_size_usdc * 1000000⌋.toNat) (2 ^ 64 - 1)

/-! ## Deduplication gate (`trader.rs::run`, lines 390-418)

```rust
let mut processed_events: HashSet<(String, String)> = HashSet::new();
...
if last_cleanup.elapsed() > Duration::from_secs(60) { processed_events.clear(); ... }
...
let event_key = (ev.mint.clone(), ev.creator.clone());
if processed_events.contains(&event_key) { ... continue; }
processed_events.insert(event_key);
```

Within one dedup window (between two clears) the set only grows.  The
`HashSet` is embedded as a list used as a set; one loop iteration is
`dedupStep` (`.1` = the event was accepted for processing, `.2` = the set
after the iteration), and `dedupRun` processes the events of one window in
receive order, returning each event's acceptance flag. -/

def DedupKey : Type := List Char × List Char

instance : DecidableEq DedupKey := instDecidableEqProd

/-- One dedup check of the trader loop: membership test, then insert. -/
def dedupStep (seen : List DedupKey) (key : DedupKey) : Bool × List DedupKey :=
  if key ∈ seen then (false, seen) else (true, key :: seen)

/-- Acceptance flags for a sequence of event keys processed within a single
dedup window, in receive order. -/
def dedupRun (seen : List DedupKey) : List DedupKey → List Bool
  | [] => []
  | k :: rest => (dedupStep seen k).1 :: dedupRun (dedupStep seen k).2 rest

/-- The dedup set after processing a sequence of keys within one window. -/
def dedupSeen (seen : List DedupKey) (l : List DedupKey) : List DedupKey :=
  l.foldl (fun s k => (dedupStep s k).2) seen

/-! ## Portfolio stop-loss guard (`risk.rs::run`, lines 160-206)

```rust
let mut peak_equity: f64 = 0.0;
let mut initialized = false;
loop {
    match get_balance_usdc().await {
        Ok(bal) => {
            if !initialized { peak_equity = bal; initialized = true; ... }
            else { peak_equity = peak_equity.max(bal); }
            let stop_loss_level = peak_equity * (1.0 - (stop_loss_percent / 100.0));
            ...
            if bal < stop_loss_level {
                let _ = kill_tx_sl.send(KillSwitch::PortfolioStopLoss);
                break;  // Stop this task after triggering
            }
        }
        Err(e) => { ... }
    }
    sleep(...).await;
}
```

The balance oracle is an external collaborator: each loop tick's fetch
outcome is an input `Option ℚ` (`none` = `Err`).  The `break` is embedded
as a `stopped` flag that makes later ticks inert (the task no longer
exists). -/

structure PortfolioState where
  peak_equity : ℚ
  initialized : Bool
  stopped : Bool
  deriving DecidableEq, Repr

/-- State at the top of the guard's loop: `peak_equity = 0.0`,
`initialized = false`, the task running. -/
def portfolioInit : PortfolioState := ⟨0, false, false⟩

/-- One tick of the portfolio stop-loss guard.  Returns the state after
the tick and whether `KillSwitch::PortfolioStopLoss` was sent on it. -/
def portfolioStep (stop_loss_percent : ℚ) (st : PortfolioState)
    (reading : Option ℚ) : PortfolioState × Bool :=
  if st.stopped then (st, false)
  else
    match reading with
    | none => (st, false)
    | some bal =>
      let peak := if st.initialized then max st.peak_equity bal else bal
      let stop_loss_level := peak * (1 - stop_loss_percent / 100)
      if bal < stop_loss_level then (⟨peak, true, true⟩, true)
      else (⟨peak, true, false⟩, false)

/-- The guard's trace over a sequence of balance-fetch outcomes: the state
after each tick paired with that tick's emission flag. -/
def portfolioRun (stop_loss_percent : ℚ) :
    PortfolioState → List (Option ℚ) → List (PortfolioState × Bool)
  | _, [] => []
  | st, r :: rest =>
    (portfolioStep stop_loss_percent st r) ::
      portfolioRun stop_loss_percent (portfolioStep stop_loss_percent st r).1
        rest

/-! ## String scanning helpers

Rust `str::find` / `str::contains` on `List Char`.  (Rust indexes by byte,
Lean by character; a match of the pattern starts at the same position in
both views, so find-then-slice behaves identically.) -/

/-- Rust `haystack.find(pattern)`: index of the first occurrence of
`pat` in the haystack (`some 0` for an empty pattern, as in Rust). -/
def findSub (pat : List Char) : List Char → Option ℕ
  | [] => if pat.isPrefixOf ([] : List Char) then some 0 else none
  | c :: rest =>
    if pat.isPrefixOf (c :: rest) then some 0
    else (findSub pat rest).map (· + 1)

/-- Rust `haystack.contains(pattern)`. -/
def containsSub (hay pat : List Char) : Bool := (findSub pat hay).isSome

/-! ## Trader per-event pipeline (`trader.rs::run`, lines 409-467)

Per received launch event, in source order: dedup check, enrichment,
classifier gate, compliance gate, liquidity gate, platform guard, then
`execute_trade`.  Each gate's `continue` is one `Decision` constructor. -/

inductive Decision
  | skipDuplicate
  | skipScore
  | skipCompliance
  | skipLiquidity
  | skipPlatform
  | execute
  deriving DecidableEq, Repr

/-- The `enrich_event` from `trader.rs`: the placeholder enrichment overwrites
`lp` with `20000.0` and always succeeds. -/
def enrich_event (ev : LaunchEvent) : LaunchEvent := { ev with lp := 20000 }

/-- The LetsBonk platform guard from `trader.rs` (lines 453-461):
`!ev.mint.to_lowercase().contains("bonk")` skips.  Lowercasing is embedded
per character. -/
def letsBonkGuardFails (ev : LaunchEvent) : Bool :=
  decide (ev.platform = Platform.LetsBonk) &&
    !(containsSub (ev.mint.map Char.toLower) ('b' :: ['o', 'n', 'k']))

/-- The gate cascade applied to an event received on the launch-event
channel, yielding which gate (if any) skips it before `execute_trade`. -/
def eventDecision (denylist : List (List Char)) (cfg : RiskConfig)
    (processed : List DedupKey) (ev : LaunchEvent) : Decision :=
  if (ev.mint, ev.creator) ∈ processed then Decision.skipDuplicate
  else
    let ev2 := enrich_event ev
    if score ev2 ≤ 1/2 then Decision.skipScore
    else if is_sanctioned denylist ev2.creator ||
        is_sanctioned denylist ev2.mint then Decision.skipCompliance
    else if ev2.lp < cfg.liquidity_threshold_usd then Decision.skipLiquidity
    else if letsBonkGuardFails ev2 then Decision.skipPlatform
    else Decision.execute

/-- The `RedisTradeSignal` struct from `trader.rs`. -/
structure RedisTradeSignal where
  action : List Char
  token : List Char
  amount_usdc : ℚ
  max_slippage : ℚ
  source : List Char
  platform : Option (List Char)
  deriving DecidableEq, Repr

/-- The `Platform::from_str` from `ws_feed.rs`: case-insensitive name match. -/
def platform_from_str (s : List Char) : Option Platform :=
  if s.map Char.toLower = "pumpfun".toList then some Platform.PumpFun
  else if s.map Char.toLower = "letsbonk".toList then some Platform.LetsBonk
  else none

/-- The `redis_signal_to_launch_event` from `trader.rs`: a synthetic event with
`holders_60 = 1000` and `lp = 999999.0` so the scoring and liquidity gates
would pass. -/
def redis_signal_to_launch_event (signal : RedisTradeSignal) : LaunchEvent :=
  { mint := signal.token
    creator := "redis_".toList ++ signal.source
    holders_60 := 1000
    lp := 999999
    platform := (signal.platform.bind platform_from_str).getD Platform.PumpFun
    amount_usdc := none
    max_slippage := none }

/-- The Redis trade-signal branch of the trader loop (`trader.rs` lines
479-497): when `action == "buy"`, the synthetic launch event is passed
straight to `execute_trade` — no dedup, classifier, compliance, liquidity
or platform gate is applied on this path.  Returns the event handed to
`execute_trade`, or `none` when the branch does not trade. -/
def redisBranch (signal : RedisTradeSignal) : Option LaunchEvent :=
  if signal.action = "buy".toList then
    some (redis_signal_to_launch_event signal)
  else none

/-! ## Slippage sentinel (`risk.rs::run`, lines 211-254)

```rust
const N: f64 = 20.0;
let alpha = 2.0 / (N + 1.0);
let mut ema = 0.0_f64; let mut ema2 = 0.0_f64;
let mut initialised = false; let mut sample_count: usize = 0;
let mut k = redis_f64("risk:slip_k").await.unwrap_or(2.0);
while let Some(slip) = slippage_rx.recv().await {
    if !initialised { ema = slip; ema2 = slip * slip; initialised = true; }
    else { ema = alpha * slip + (1.0 - alpha) * ema;
           ema2 = alpha * slip * slip + (1.0 - alpha) * ema2; }
    sample_count += 1;
    let var = (ema2 - ema * ema).max(0.0);
    let std_dev = var.sqrt();
    if let Some(new_k) = redis_f64("risk:slip_k").await { k = new_k; }
    let threshold = k * std_dev;
    ...
    if sample_count >= 5 && slip < -threshold && threshold > 0.0 {
        let _ = kill_tx.send(KillSwitch::Slippage);
    }
}
```

Each channel receive is a pair `(slip, kRead)`: the sample and the
outcome of that iteration's Redis read of `risk:slip_k` (`none` = key
unset/unreadable, keep the previous `k`). -/

/-- The `SlippageState` of the sentinel. -/
structure SlipState where
  ema : ℚ
  ema2 : ℚ
  initialised : Bool
  sample_count : ℕ
  k : ℚ
  deriving DecidableEq, Repr

/-- The `alpha = 2.0 / (N + 1.0)` with `N = 20.0`. -/
def slipAlpha : ℚ := 2 / 21

/-- Sentinel state before the first receive; `k0` is the initial Redis
read's result, `redis_f64("risk:slip_k").await.unwrap_or(2.0)`. -/
def slipInit (k0 : ℚ) : SlipState := ⟨0, 0, false, 0, k0⟩

/-- The per-sample state update: EMA/EMA² update, sample count increment,
opportunistic `k` refresh. -/
def slipUpdate (st : SlipState) (slip : ℚ) (kRead : Option ℚ) : SlipState :=
  { ema :=
      if st.initialised then slipAlpha * slip + (1 - slipAlpha) * st.ema
      else slip
    ema2 :=
      if st.initialised then
        slipAlpha * slip * slip + (1 - slipAlpha) * st.ema2
      else slip * slip
    initialised := true
    sample_count := st.sample_count + 1
    k := kRead.getD st.k }

/-- The `var = (ema2 - ema * ema).max(0.0)`. -/
def slipVar (st : SlipState) : ℚ := max (st.ema2 - st.ema * st.ema) 0

/-- The breach test evaluated after the update, on the updated state:
`sample_count >= 5 && slip < -threshold && threshold > 0.0` with
`threshold = k * var.sqrt()`.  Square roots are not rational-valued, so
the two threshold conjuncts are phrased on squares; the theorem
`slippage_sentinel_spec` proves this test equal to the source's
real-arithmetic formulation `slip < -k·σ ∧ k·σ > 0` with `σ = √var`. -/
def slipBreach (st : SlipState) (slip : ℚ) : Bool :=
  decide (5 ≤ st.sample_count) &&
    (decide (slip < 0) && decide (st.k ^ 2 * slipVar st < slip ^ 2)) &&
    (decide (0 < st.k) && decide (0 < slipVar st))

/-- The sentinel's emission trace over the received samples, in receive
order: entry `i` is whether `KillSwitch::Slippage` was sent on sample
`i`. -/
def slipRun (st : SlipState) : List (ℚ × Option ℚ) → List Bool
  | [] => []
  | (s, kr) :: rest =>
    slipBreach (slipUpdate st s kr) s :: slipRun (slipUpdate st s kr) rest

/-- Sentinel state after consuming a list of samples. -/
def slipStateAfter (st : SlipState) (l : List (ℚ × Option ℚ)) : SlipState :=
  l.foldl (fun st p => slipUpdate st p.1 p.2) st

/-! ## Kill-switch listener (`main.rs`, lines 97-115) -/

/-- The listener's label map, from the `match kind` in `main.rs` (lines
102-105).  The source `match` has arms only for `EquityFloor`
(`"equity_floor"`) and `Slippage` (`"slippage"`): there is no arm for
`PortfolioStopLoss`, which makes the match non-exhaustive over the
three-variant `KillSwitch` enum; the missing arm is embedded as `none`. -/
def killLabel : KillSwitch → Option (List Char)
  | KillSwitch.EquityFloor => some "equity_floor".toList
  | KillSwitch.Slippage => some "slippage".toList
  | KillSwitch.PortfolioStopLoss => none

/-! ## Frame normalisation (`ws_feed.rs`, lines 85-158)

The serde structures `LogNotification`/`RpcParams`/`RpcResult`/
`RpcLogValue` and the functions `extract_from_log` and
`normalise_message`.  The serde_json textual parse is an external
collaborator; `normalise_message` here receives the outcome of
`serde_json::from_str::<LogNotification>(raw)` as an
`Option LogNotification` (`none` = any parse error) together with
`raw.len()`.  The `err: serde_json::Value` field is only ever consulted
through `is_null()`, so it is embedded as `Option Unit` with `none`
standing for JSON `null`. -/

structure RpcLogValue where
  logs : List (List Char)
  err : Option Unit
  deriving DecidableEq, Repr

structure RpcResult where
  value : RpcLogValue
  deriving DecidableEq, Repr

structure RpcParams where
  result : RpcResult
  subscription : ℕ
  deriving DecidableEq, Repr

structure LogNotification where
  method : List Char
  params : RpcParams
  deriving DecidableEq, Repr

/-- The maximum accepted frame size, `MAX_MSG_LEN = 65536`. -/
def MAX_MSG_LEN : ℕ := 65536

/-- Rust `rest.split_whitespace().next().unwrap_or("")`: the first
whitespace-delimited token of `rest`, or the empty string when there is
none. -/
def firstToken (s : List Char) : List Char :=
  (s.dropWhile Char.isWhitespace).takeWhile (fun c => !c.isWhitespace)

/-- The `extract_from_log` from `ws_feed.rs`:

```rust
fn extract_from_log(log: &str, prefix: &str) -> Option<String> {
    log.find(prefix).map(|start| {
        let rest = &log[start + prefix.len()..];
        rest.split_whitespace().next().unwrap_or("").to_string()
    })
}
``` -/
def extract_from_log (log pfx : List Char) : Option (List Char) :=
  (findSub pfx log).map (fun start => firstToken (log.drop (start + pfx.length)))

/-- The Rust slice `&log[i..]` as a fallible operation: `none` models the
panic on an out-of-range start index. -/
def sliceFrom (s : List Char) (i : ℕ) : Option (List Char) :=
  if i ≤ s.length then some (s.drop i) else none

/-- The `extract_from_log` with its one panic site instrumented: the outer
`none` is the panic of `&log[start + prefix.len()..]`.  The theorem
`normalise_total` proves the panic never happens and that this function
agrees with `extract_from_log`. -/
def extract_from_log_checked (log pfx : List Char) :
    Option (Option (List Char)) :=
  match findSub pfx log with
  | none => some none
  | some start =>
    match sliceFrom log (start + pfx.length) with
    | none => none
    | some rest => some (some (firstToken rest))

/-- Numeric value of a digit string (helper for the std parses). -/
def natVal (l : List Char) : ℕ :=
  l.foldl (fun n c => 10 * n + (c.toNat - 48)) 0

/-- Rust `val.parse::<u32>()`: an optional leading `+`, then one or more
ASCII digits, rejecting values outside the `u32` range. -/
def parse_u32 (s : List Char) : Option ℕ :=
  let body := match s with
    | '+' :: rest => rest
    | _ => s
  if body.isEmpty || !(body.all Char.isDigit) then none
  else if natVal body ≤ 2 ^ 32 - 1 then some (natVal body) else none

/-- Rust `val.parse::<f64>()`, restricted to the plain decimal grammar
`[+|-] digits [. digits]` / `[+|-] . digits` used by the feed's numeric
log values (the full `f64` grammar additionally admits exponents and
inf/nan spellings, which never occur in the frames this spec covers; the
`f64` value is embedded as the exact rational). -/
def parse_f64 (s : List Char) : Option ℚ :=
  let signed : ℚ × List Char := match s with
    | '+' :: rest => (1, rest)
    | '-' :: rest => (-1, rest)
    | _ => (1, s)
  match signed.2.splitOn '.' with
  | [ip] =>
    if ip.isEmpty || !(ip.all Char.isDigit) then none
    else some (signed.1 * natVal ip)
  | [ip, fp] =>
    if (ip.isEmpty && fp.isEmpty) || !(ip.all Char.isDigit) ||
        !(fp.all Char.isDigit) then none
    else some (signed.1 * ((natVal ip : ℚ) + (natVal fp : ℚ) / 10 ^ fp.length))
  | _ => none

/-- One iteration of the extraction loop of `normalise_message`: each of
the four prefix scans overwrites its accumulator slot whenever the prefix
occurs in the log line (for `holders_60`/`lp` the slot is overwritten with
the parse result, which may be `none` on a failed parse, exactly as
`holders_60 = val.parse::<u32>().ok()` does). -/
def scanLog
    (acc : Option (List Char) × Option (List Char) × Option ℕ × Option ℚ)
    (log : List Char) :
    Option (List Char) × Option (List Char) × Option ℕ × Option ℚ :=
  (match extract_from_log log "Program log: mint: ".toList with
    | some v => some v
    | none => acc.1,
   match extract_from_log log "Program log: creator: ".toList with
    | some v => some v
    | none => acc.2.1,
   match extract_from_log log "Program log: holders_60: ".toList with
    | some v => parse_u32 v
    | none => acc.2.2.1,
   match extract_from_log log "Program log: lp: ".toList with
    | some v => parse_f64 v
    | none => acc.2.2.2)

/-- The full extraction pass over the `logs` array, in order. -/
def scanLogs (logs : List (List Char)) :
    Option (List Char) × Option (List Char) × Option ℕ × Option ℚ :=
  logs.foldl scanLog (none, none, none, none)

/-- The `normalise_message` from `ws_feed.rs`: size gate, parse + method gate,
`err` null gate, `initialize2` launch-indicator gate, prefix extraction,
and the requirement that all four of mint/creator/holders_60/lp were
extracted. -/
def normalise_message (rawLen : ℕ) (parsed : Option LogNotification)
    (platform : Platform) : Option LaunchEvent :=
  if rawLen > MAX_MSG_LEN then none
  else
    match parsed with
    | some n =>
      if n.method = "logsNotification".toList then
        if n.params.result.value.err.isNone then
          if n.params.result.value.logs.any
              (fun log => containsSub log "initialize2".toList) then
            match scanLogs n.params.result.value.logs with
            | (some mint, some creator, some h60, some lp) =>
              some ⟨mint, creator, h60, lp, platform, none, none⟩
            | _ => none
          else none
        else none
      else none
    | none => none

end Aniper

namespace Aniper

/-! ## Claim C9 — classifier scoring -/

/-- C9: for every `LaunchEvent`, `score` is `0.9` when `holders_60 ≥ 50` and
`lp ≥ 0.5`, and `0.1` otherwise; both boundaries are inclusive:
`holders_60 = 50, lp = 0.5` scores `0.9`, while `holders_60 = 49` or
`lp = 0.49` scores `0.1`. -/
theorem score_spec :
    (∀ ev : LaunchEvent, 50 ≤ ev.holders_60 → (1 : ℚ)/2 ≤ ev.lp →
      score ev = 9/10) ∧
    (∀ ev : LaunchEvent, ev.holders_60 < 50 ∨ ev.lp < (1 : ℚ)/2 →
      score ev = 1/10) ∧
    score ⟨['A'], ['X'], 50, 1/2, Platform.PumpFun, none, none⟩ = 9/10 ∧
    score ⟨['A'], ['X'], 49, 1/2, Platform.PumpFun, none, none⟩ = 1/10 ∧
    score ⟨['A'], ['X'], 50, 49/100, Platform.PumpFun, none, none⟩ = 1/10 := by
  refine ⟨?_, ?_, by norm_num [score], by norm_num [score], by norm_num [score]⟩
  · intro ev h1 h2
    simp only [score]
    rw [if_pos ⟨h1, h2⟩]
  · intro ev h
    simp only [score]
    rw [if_neg]
    rintro ⟨h1, h2⟩
    rcases h with h | h
    · exact absurd h1 (Nat.not_le.mpr h)
    · exact absurd h2 (not_le.mpr h)

/-- Witness for `score_spec`: its hypotheses discharged at the boundary
inputs of the claim. -/
theorem score_spec_witness :
    score ⟨['A'], ['X'], 50, 1/2, Platform.PumpFun, none, none⟩ = 9/10 ∧
    score ⟨['A'], ['X'], 49, 3/4, Platform.PumpFun, none, none⟩ = 1/10 :=
  ⟨score_spec.1 _ (by norm_num) (by norm_num),
   score_spec.2.1 _ (Or.inl (by norm_num))⟩

/-! ## Claim C7 — position sizing

The claim states `size_usdc = max(current_equity, 1000) × pct/100`.  The
source instead uses `get_balance_usdc().await.unwrap_or(1000.0)`: the
fallback `1000` applies only when the balance fetch *fails*, it is not a
lower bound on a successfully fetched equity. -/

/-- C7 counterexample: with a successfully fetched equity of 500 USDC and
`position_size_percent = 2`, the code sizes the position at
`500 × 2/100 = 10` USDC, not `max(500, 1000) × 2/100 = 20` USDC as the
claim states. -/
theorem position_sizing_counterexample :
    position_size_usdc (some 500) ⟨2, 10000, 5, 20⟩ = 10 ∧
    position_size_usdc (some 500) ⟨2, 10000, 5, 20⟩ ≠
      max 500 1000 * ((2 : ℚ) / 100) := by
  constructor
  · norm_num [position_size_usdc]
  · norm_num [position_size_usdc]

/-- C7 (amended): the position size in USDC equals the fetched equity when
the balance fetch succeeds, and the fallback `1000` only when it fails,
times `position_size_percent/100`; the conversion to the native integer
unit multiplies by the fixed scale `1e6` and truncates (for sizes whose
scaled value is representable in `u64`). -/
theorem position_sizing_amended :
    (∀ (b : ℚ) (cfg : RiskConfig),
      position_size_usdc (some b) cfg = b * cfg.position_size_percent / 100) ∧
    (∀ cfg : RiskConfig,
      position_size_usdc none cfg = 1000 * cfg.position_size_percent / 100) ∧
    (∀ x : ℚ, 0 ≤ x → x * 1000000 ≤ 2 ^ 64 - 1 →
      (position_size_lamports x : ℤ) = ⌊x * 1000000⌋) := by
  refine ⟨?_, ?_, ?_⟩
  · intro b cfg
    simp [position_size_usdc, mul_div_assoc]
  · intro cfg
    simp [position_size_usdc, mul_div_assoc]
  · intro x hx hb
    have h0 : (0 : ℤ) ≤ ⌊x * 1000000⌋ := Int.floor_nonneg.mpr (by positivity)
    have h1 : ⌊x * 1000000⌋ ≤ (2 : ℤ) ^ 64 - 1 := by
      have h2 : ⌊x * 1000000⌋ ≤ ⌊(2 : ℚ) ^ 64 - 1⌋ := Int.floor_le_floor hb
      have h4 : (2 : ℚ) ^ 64 - 1 = (((2 : ℤ) ^ 64 - 1 : ℤ) : ℚ) := by
        push_cast
        ring
      rw [h4, Int.floor_intCast] at h2
      exact h2
    have h3 : ⌊x * 1000000⌋.toNat ≤ 2 ^ 64 - 1 := by omega
    simp only [position_size_lamports]
    rw [Nat.min_eq_left h3]
    exact_mod_cast Int.toNat_of_nonneg h0

/-- Witness for `position_sizing_amended`: the truncation clause discharged
at the concrete size 10 USDC. -/
theorem position_sizing_amended_witness :
    (position_size_lamports 10 : ℤ) = ⌊(10 : ℚ) * 1000000⌋ :=
  position_sizing_amended.2.2 10 (by norm_num) (by norm_num)

/-! ## Claim C8 — at most one acceptance per `(mint, creator)` per window -/

/-- The dedup set can only grow within a window: membership is preserved. -/
theorem dedupSeen_mem {k : DedupKey} {seen : List DedupKey}
    (l : List DedupKey) (h : k ∈ seen) : k ∈ dedupSeen seen l := by
  induction l generalizing seen with
  | nil => exact h
  | cons a rest ih =>
    simp only [dedupSeen, List.foldl_cons]
    apply ih
    simp only [dedupStep]
    split
    · exact h
    · exact List.mem_cons_of_mem _ h

/-- After an occurrence of `k` is processed, `k` is in the dedup set. -/
theorem dedupSeen_mem_self (k : DedupKey) (seen : List DedupKey)
    (l : List DedupKey) : k ∈ dedupSeen ((dedupStep seen k).2) l := by
  apply dedupSeen_mem
  simp only [dedupStep]
  split
  · assumption
  · exact List.mem_cons_self _ _

theorem dedupRun_cons (seen : List DedupKey) (k : DedupKey)
    (rest : List DedupKey) :
    dedupRun seen (k :: rest) =
      (dedupStep seen k).1 :: dedupRun (dedupStep seen k).2 rest := rfl

theorem dedupRun_append (seen : List DedupKey) (l1 l2 : List DedupKey) :
    dedupRun seen (l1 ++ l2) =
      dedupRun seen l1 ++ dedupRun (dedupSeen seen l1) l2 := by
  induction l1 generalizing seen with
  | nil => rfl
  | cons a rest ih =>
    simp only [List.cons_append, dedupRun_cons]
    rw [ih]
    rfl

theorem dedupRun_length (seen : List DedupKey) (l : List DedupKey) :
    (dedupRun seen l).length = l.length := by
  induction l generalizing seen with
  | nil => rfl
  | cons a rest ih => simp [dedupRun, ih]

/-- C8: within a single dedup window, once an event with key `k` has been
accepted by the dedup step, every later event in the window with the same
`(mint, creator)` key is rejected. -/
theorem dedup_single_acceptance (seen : List DedupKey)
    (pre mid post : List DedupKey) (k : DedupKey)
    (_hacc : (dedupRun seen (pre ++ k :: (mid ++ k :: post)))[pre.length]? =
      some true) :
    (dedupRun seen (pre ++ k :: (mid ++ k :: post)))[pre.length + 1 +
      mid.length]? = some false := by
  rw [dedupRun_append]
  rw [List.getElem?_append_right (by rw [dedupRun_length]; omega)]
  rw [dedupRun_length]
  have hidx : pre.length + 1 + mid.length - pre.length = mid.length + 1 := by
    omega
  rw [hidx]
  rw [dedupRun_cons, List.getElem?_cons_succ, dedupRun_append]
  rw [List.getElem?_append_right (by rw [dedupRun_length])]
  rw [dedupRun_length, Nat.sub_self, dedupRun_cons, List.getElem?_cons_zero]
  have hmem : k ∈ dedupSeen ((dedupStep (dedupSeen seen pre) k).2) mid :=
    dedupSeen_mem_self k (dedupSeen seen pre) mid
  simp only [dedupStep] at hmem ⊢
  rw [if_pos hmem]

/-- Witness for `dedup_single_acceptance`: two identical keys in one
window, the first accepted, the second rejected. -/
theorem dedup_single_acceptance_witness :
    (dedupRun [] ([] ++ (['a'], ['b']) :: ([] ++ (['a'], ['b']) :: [])))[
      List.length ([] : List DedupKey) + 1 +
      List.length ([] : List DedupKey)]? = some false :=
  dedup_single_acceptance [] [] [] [] (['a'], ['b']) (by decide)

/-! ## Claim C2 — portfolio guard: monotone peak, one-shot kill-switch -/

theorem portfolioStep_of_stopped {pct : ℚ} {st : PortfolioState}
    (r : Option ℚ) (h : st.stopped = true) :
    portfolioStep pct st r = (st, false) := by
  simp [portfolioStep, h]

/-- A stopped guard never emits again. -/
theorem portfolioRun_count_of_stopped {pct : ℚ} {st : PortfolioState}
    (h : st.stopped = true) (l : List (Option ℚ)) :
    (portfolioRun pct st l).countP (fun p => p.2) = 0 := by
  induction l with
  | nil => rfl
  | cons r rest ih =>
    simp only [portfolioRun, portfolioStep_of_stopped r h, List.countP_cons]
    simpa using ih

/-- Emission on a tick sets the `stopped` flag (the `break`). -/
theorem portfolioStep_stopped_of_emit {pct : ℚ} {st : PortfolioState}
    {r : Option ℚ} (h : (portfolioStep pct st r).2 = true) :
    (portfolioStep pct st r).1.stopped = true := by
  by_cases hs : st.stopped = true
  · rw [portfolioStep_of_stopped r hs] at h
    exact absurd h (by simp)
  · cases r with
    | none => simp [portfolioStep, hs] at h
    | some bal =>
      simp only [portfolioStep, hs, if_false, Bool.false_eq_true] at h ⊢
      split_ifs at h ⊢ <;> simp_all

/-- At most one `PortfolioStopLoss` emission over any run of the guard. -/
theorem portfolioRun_count_le_one (pct : ℚ) (st : PortfolioState)
    (l : List (Option ℚ)) :
    (portfolioRun pct st l).countP (fun p => p.2) ≤ 1 := by
  induction l generalizing st with
  | nil => simp [portfolioRun]
  | cons r rest ih =>
    simp only [portfolioRun, List.countP_cons]
    by_cases he : (portfolioStep pct st r).2 = true
    · rw [portfolioRun_count_of_stopped (portfolioStep_stopped_of_emit he)]
      simp [he]
    · simp only [decide_eq_true_eq, he, if_false]
      simpa using ih (portfolioStep pct st r).1

/-- The tick update never decreases `peak_equity`, given the loop's
invariant (`peak_equity = 0.0` until initialisation) and a non-negative
balance reading. -/
theorem portfolioStep_peak_mono {pct : ℚ} {st : PortfolioState}
    {r : Option ℚ} (hinv : st.initialized = false → st.peak_equity = 0)
    (hr : ∀ b : ℚ, r = some b → 0 ≤ b) :
    st.peak_equity ≤ (portfolioStep pct st r).1.peak_equity := by
  by_cases hs : st.stopped = true
  · rw [portfolioStep_of_stopped r hs]
  · cases r with
    | none => simp [portfolioStep, hs]
    | some bal =>
      have hb : 0 ≤ bal := hr bal rfl
      simp only [portfolioStep, hs, if_false, Bool.false_eq_true]
      by_cases hi : st.initialized = true
      · simp only [hi, if_true]
        split_ifs <;> simp
      · have h0 : st.peak_equity = 0 := hinv (by simpa using hi)
        simp only [hi, if_false]
        split_ifs <;> simp [h0] <;> exact hb

/-- The tick update preserves the pre-initialisation invariant. -/
theorem portfolioStep_inv {pct : ℚ} {st : PortfolioState} {r : Option ℚ}
    (hinv : st.initialized = false → st.peak_equity = 0) :
    (portfolioStep pct st r).1.initialized = false →
      (portfolioStep pct st r).1.peak_equity = 0 := by
  by_cases hs : st.stopped = true
  · rw [portfolioStep_of_stopped r hs]
    exact hinv
  · cases r with
    | none => simpa [portfolioStep, hs] using hinv
    | some bal =>
      simp only [portfolioStep, hs, if_false, Bool.false_eq_true]
      split_ifs <;> simp

/-- Along any run from a state satisfying the invariant, with non-negative
balance readings, the successive `peak_equity` values form a
non-decreasing chain. -/
theorem portfolioRun_peak_chain (pct : ℚ) (st : PortfolioState)
    (l : List (Option ℚ))
    (hinv : st.initialized = false → st.peak_equity = 0)
    (h : ∀ b : ℚ, some b ∈ l → 0 ≤ b) :
    List.Chain' (· ≤ ·)
      (st.peak_equity ::
        (portfolioRun pct st l).map (fun p => p.1.peak_equity)) := by
  induction l generalizing st with
  | nil => simp [portfolioRun]
  | cons r rest ih =>
    simp only [portfolioRun, List.map_cons]
    rw [List.chain'_cons]
    constructor
    · exact portfolioStep_peak_mono hinv (fun b hb => h b (hb ▸ List.mem_cons_self _ _))
    · exact ih (portfolioStep pct st r).1 (portfolioStep_inv hinv)
        (fun b hb => h b (List.mem_cons_of_mem _ hb))

/-- C2: over every sequence of balance readings in one process lifetime
(readings are non-negative, as produced by the balance oracle), the
guard's `peak_equity` is monotonically non-decreasing, and at most one
`PortfolioStopLoss` kill-switch is emitted because the loop breaks after
sending it. -/
theorem portfolio_guard_spec (pct : ℚ) (readings : List (Option ℚ))
    (h : ∀ b : ℚ, some b ∈ readings → 0 ≤ b) :
    List.Chain' (· ≤ ·)
      (portfolioInit.peak_equity ::
        (portfolioRun pct portfolioInit readings).map
          (fun p => p.1.peak_equity)) ∧
    (portfolioRun pct portfolioInit readings).countP (fun p => p.2) ≤ 1 :=
  ⟨portfolioRun_peak_chain pct portfolioInit readings (fun _ => rfl) h,
   portfolioRun_count_le_one pct portfolioInit readings⟩

/-- Witness for `portfolio_guard_spec`: a concrete run (peak 100, then a
drawdown to 50 under a 25% stop) in which the kill-switch fires once. -/
theorem portfolio_guard_spec_witness :
    List.Chain' (· ≤ ·)
      (portfolioInit.peak_equity ::
        (portfolioRun 25 portfolioInit [some 100, none, some 50]).map
          (fun p => p.1.peak_equity)) ∧
    (portfolioRun 25 portfolioInit [some 100, none, some 50]).countP
      (fun p => p.2) ≤ 1 :=
  portfolio_guard_spec 25 [some 100, none, some 50] (by
    intro b hb
    simp only [List.mem_cons, List.not_mem_nil, or_false, Option.some.injEq,
      reduceCtorEq, false_or] at hb
    rcases hb with rfl | rfl <;> norm_num)

/-! ## Claim C4 — denylist compliance gate

The claim requires the compliance skip on *every* path into
`execute_trade`, including the manual Redis trade-signal path.  On the
launch-event path the gate is applied (`trader.rs` lines 430-439); on the
Redis path (`trader.rs` lines 479-497) `execute_trade` is invoked on the
synthetic event with no compliance check at all. -/

/-- C4 counterexample: with denylist `{"BAD1"}`, a manual Redis buy signal
for token `"BAD1"` is handed to `execute_trade` (it is not skipped), even
though its mint is sanctioned. -/
theorem compliance_redis_counterexample :
    redisBranch
        ⟨"buy".toList, "BAD1".toList, 50, 1/100, "ops".toList, none⟩ =
      some (redis_signal_to_launch_event
        ⟨"buy".toList, "BAD1".toList, 50, 1/100, "ops".toList, none⟩) ∧
    (redis_signal_to_launch_event
        ⟨"buy".toList, "BAD1".toList, 50, 1/100, "ops".toList, none⟩).mint =
      "BAD1".toList ∧
    is_sanctioned ["BAD1".toList]
      (redis_signal_to_launch_event
        ⟨"buy".toList, "BAD1".toList, 50, 1/100, "ops".toList, none⟩).mint =
      true := by
  refine ⟨?_, by decide, by decide⟩
  decide

/-- C4 (amended): on the launch-event path, every event whose creator or
mint is in the denylist is skipped before `execute_trade`; the manual
Redis trade-signal path performs no compliance check. -/
theorem compliance_gate_amended (denylist : List (List Char))
    (cfg : RiskConfig) (processed : List DedupKey) (ev : LaunchEvent)
    (h : is_sanctioned denylist ev.creator = true ∨
      is_sanctioned denylist ev.mint = true) :
    eventDecision denylist cfg processed ev ≠ Decision.execute := by
  have hcomp : (is_sanctioned denylist (enrich_event ev).creator ||
      is_sanctioned denylist (enrich_event ev).mint) = true := by
    rcases h with h | h <;> simp [enrich_event, h]
  simp only [eventDecision]
  split_ifs with h1 h2 <;> simp_all

/-- Witness for `compliance_gate_amended`: a sanctioned creator is skipped
on the launch-event path. -/
theorem compliance_gate_amended_witness :
    eventDecision ["BAD1".toList] ⟨2, 10000, 5, 20⟩ []
        ⟨"M1".toList, "BAD1".toList, 100, 1, Platform.PumpFun, none, none⟩ ≠
      Decision.execute :=
  compliance_gate_amended ["BAD1".toList] ⟨2, 10000, 5, 20⟩ []
    ⟨"M1".toList, "BAD1".toList, 100, 1, Platform.PumpFun, none, none⟩
    (Or.inl (by decide))

/-! ## Claim C3 — kill-switch listener

The listener in `main.rs` (lines 97-115) matches the received kind to a
label, increments `killswitch_total{kind}`, logs, sleeps 100 ms and exits
with status 1 on the first signal.  But its `match kind` (lines 102-105)
has arms only for `EquityFloor` and `Slippage`: there is no arm for
`PortfolioStopLoss` even though `risk.rs` sends that variant, so the match
is non-exhaustive over the three-variant enum (the crate does not compile
as written, and the label `"portfolio_stop_loss"` appears nowhere in
`main.rs`). -/

/-- C3 evaluated at the failing input: the listener's label map covers
`EquityFloor` and `Slippage` as claimed, but has no mapping for
`PortfolioStopLoss` — the claim's `"portfolio_stop_loss"` label does not
exist in the code. -/
theorem kill_listener_labels :
    killLabel KillSwitch.EquityFloor = some "equity_floor".toList ∧
    killLabel KillSwitch.Slippage = some "slippage".toList ∧
    killLabel KillSwitch.PortfolioStopLoss = none :=
  ⟨rfl, rfl, rfl⟩

/-! ## Claims C5, C6, C10 — frame normalisation -/

/-- A match of the pattern fits inside the haystack: the slice start
`found-index + pattern-length` is within bounds. -/
theorem findSub_le (pat hay : List Char) (i : ℕ)
    (h : findSub pat hay = some i) : i + pat.length ≤ hay.length := by
  induction hay generalizing i with
  | nil =>
    simp only [findSub] at h
    split_ifs at h with hp
    obtain rfl : 0 = i := by simpa using h
    simpa using List.IsPrefix.length_le (List.isPrefixOf_iff_prefix.mp hp)
  | cons c rest ih =>
    simp only [findSub] at h
    split_ifs at h with hp
    · obtain rfl : 0 = i := by simpa using h
      simpa using List.IsPrefix.length_le (List.isPrefixOf_iff_prefix.mp hp)
    · rw [Option.map_eq_some'] at h
      obtain ⟨j, hj, rfl⟩ := h
      have := ih j hj
      simp only [List.length_cons]
      omega

/-- The instrumented extraction never panics and agrees with the plain
embedding: the slice `&log[start + prefix.len()..]` is always in
bounds. -/
theorem extract_from_log_checked_eq (log pfx : List Char) :
    extract_from_log_checked log pfx = some (extract_from_log log pfx) := by
  cases hf : findSub pfx log with
  | none => simp [extract_from_log_checked, extract_from_log, hf]
  | some start =>
    have hle : start + pfx.length ≤ log.length := findSub_le pfx log start hf
    simp [extract_from_log_checked, extract_from_log, hf, sliceFrom, hle]

/-- A frame that fails the serde parse (or the bundled method check) is
dropped. -/
theorem normalise_message_none (rawLen : ℕ) (platform : Platform) :
    normalise_message rawLen none platform = none := by
  simp only [normalise_message]
  split_ifs <;> rfl

/-- C10: `normalise_message` is total.  The one panic-prone operation, the
byte slice inside `extract_from_log`, is always in bounds (the
instrumented variant returns the panic-free result on every input —
including a prefix match at the very end of a line, which yields the
empty token); and on every input the normaliser returns `none` or a
`LaunchEvent`. -/
theorem normalise_total :
    (∀ log pfx : List Char,
      extract_from_log_checked log pfx = some (extract_from_log log pfx)) ∧
    extract_from_log "Program log: mint: ".toList
      "Program log: mint: ".toList = some [] ∧
    (∀ (rawLen : ℕ) (parsed : Option LogNotification) (platform : Platform),
      normalise_message rawLen parsed platform = none ∨
        ∃ ev : LaunchEvent,
          normalise_message rawLen parsed platform = some ev) := by
  refine ⟨extract_from_log_checked_eq, by decide, ?_⟩
  intro rawLen parsed platform
  cases h : normalise_message rawLen parsed platform with
  | none => exact Or.inl rfl
  | some ev => exact Or.inr ⟨ev, rfl⟩

/-- C5 counterexample: a well-formed, accepted frame whose logs carry a
non-empty mint (`"M1"`) and creator (`"C1"`) but no `holders_60:` or
`lp:` line produces *no* event — the missing values are not defaulted to
0, they suppress emission. -/
theorem normalise_defaults_counterexample :
    normalise_message 200
        (some ⟨"logsNotification".toList,
          ⟨⟨⟨["Program log: initialize2".toList,
              "Program log: mint: M1".toList,
              "Program log: creator: C1".toList], none⟩⟩, 1⟩⟩)
        Platform.PumpFun = none ∧
    extract_from_log "Program log: mint: M1".toList
      "Program log: mint: ".toList = some "M1".toList ∧
    extract_from_log "Program log: creator: C1".toList
      "Program log: creator: ".toList = some "C1".toList ∧
    "M1".toList ≠ ([] : List Char) ∧ "C1".toList ≠ ([] : List Char) :=
  ⟨by decide, by decide, by decide, by decide, by decide⟩

/-- C5 (amended): for every accepted frame, normalisation emits a
LaunchEvent iff the log scan extracted all four of mint, creator, a
parsable `holders_60` and a parsable `lp`; the event carries exactly the
extracted values (no defaulting occurs, and emission does not require the
extracted mint/creator to be non-empty). -/
theorem normalise_emission_amended (rawLen : ℕ) (n : LogNotification)
    (platform : Platform) (h1 : rawLen ≤ MAX_MSG_LEN)
    (h2 : n.method = "logsNotification".toList)
    (h3 : n.params.result.value.err = none)
    (h4 : n.params.result.value.logs.any
      (fun log => containsSub log "initialize2".toList) = true) :
    normalise_message rawLen (some n) platform =
      match scanLogs n.params.result.value.logs with
      | (some mint, some creator, some h60, some lp) =>
        some ⟨mint, creator, h60, lp, platform, none, none⟩
      | _ => none := by
  simp only [normalise_message]
  rw [if_neg (by omega), if_pos h2, if_pos (by simp [h3]), if_pos h4]

/-- Witness for `normalise_emission_amended`: on the concrete frame of
`normalise_defaults_counterexample` (mint and creator present, no
`holders_60`/`lp`), the amended rule evaluates to "no event". -/
theorem normalise_emission_amended_witness :
    normalise_message 200
        (some ⟨"logsNotification".toList,
          ⟨⟨⟨["Program log: initialize2".toList,
              "Program log: mint: M1".toList,
              "Program log: creator: C1".toList], none⟩⟩, 1⟩⟩)
        Platform.PumpFun = none :=
  (normalise_emission_amended 200 _ Platform.PumpFun (by decide) (by decide)
    (by decide) (by decide)).trans (by decide)

/-- C6 counterexample: a well-formed successful notification whose logs
contain an `"Instruction: Create"` line, a non-empty mint and creator and
parsable `holders_60`/`lp`, but no `initialize2` marker, is *rejected* —
`"Instruction: Create"`/`"Instruction: Initialize"` lines are not
recognised launch indicators in the code. -/
theorem instruction_create_counterexample :
    normalise_message 200
        (some ⟨"logsNotification".toList,
          ⟨⟨⟨["Program log: Instruction: Create".toList,
              "Program log: mint: M1".toList,
              "Program log: creator: C1".toList,
              "Program log: holders_60: 120".toList,
              "Program log: lp: 1.5".toList], none⟩⟩, 1⟩⟩)
        Platform.PumpFun = none ∧
    List.any ["Program log: Instruction: Create".toList,
        "Program log: mint: M1".toList,
        "Program log: creator: C1".toList,
        "Program log: holders_60: 120".toList,
        "Program log: lp: 1.5".toList]
      (fun log => containsSub log "Instruction: Create".toList) = true :=
  ⟨by decide, by decide⟩

/-- C6 (amended): a frame is accepted only if it parses as a JSON-RPC
notification with method `"logsNotification"`, its inner `err` is null,
and its `logs` array contains a line containing the `initialize2` marker
(the only launch indicator the code recognises); a successful
notification with the marker and all four fields present is accepted. -/
theorem normalise_acceptance_amended :
    (∀ (rawLen : ℕ) (parsed : Option LogNotification) (platform : Platform)
        (ev : LaunchEvent),
      normalise_message rawLen parsed platform = some ev →
        rawLen ≤ MAX_MSG_LEN ∧
        ∃ n, parsed = some n ∧ n.method = "logsNotification".toList ∧
          n.params.result.value.err = none ∧
          n.params.result.value.logs.any
            (fun log => containsSub log "initialize2".toList) = true) ∧
    (normalise_message 200
        (some ⟨"logsNotification".toList,
          ⟨⟨⟨["Program log: initialize2".toList,
              "Program log: mint: M1".toList,
              "Program log: creator: C1".toList,
              "Program log: holders_60: 120".toList,
              "Program log: lp: 1.5".toList], none⟩⟩, 1⟩⟩)
        Platform.PumpFun).isSome = true := by
  constructor
  · intro rawLen parsed platform ev h
    cases parsed with
    | none =>
      rw [normalise_message_none] at h
      exact Option.noConfusion h
    | some n =>
      simp only [normalise_message] at h
      by_cases hg1 : rawLen > MAX_MSG_LEN
      · rw [if_pos hg1] at h
        exact Option.noConfusion h
      rw [if_neg hg1] at h
      by_cases hg2 : n.method = "logsNotification".toList
      swap
      · rw [if_neg hg2] at h
        exact Option.noConfusion h
      rw [if_pos hg2] at h
      by_cases hg3 : n.params.result.value.err.isNone = true
      swap
      · rw [if_neg hg3] at h
        exact Option.noConfusion h
      rw [if_pos hg3] at h
      by_cases hg4 : n.params.result.value.logs.any
          (fun log => containsSub log "initialize2".toList) = true
      swap
      · rw [if_neg hg4] at h
        exact Option.noConfusion h
      exact ⟨by omega, n, rfl, hg2, Option.isNone_iff_eq_none.mp hg3, hg4⟩
  · decide

/-- Witness for `normalise_acceptance_amended`: its only-if direction
applied to the concrete accepted frame of its second conjunct. -/
theorem normalise_acceptance_amended_witness :
    200 ≤ MAX_MSG_LEN ∧
    ∃ n, (some ⟨"logsNotification".toList,
          ⟨⟨⟨["Program log: initialize2".toList,
              "Program log: mint: M1".toList,
              "Program log: creator: C1".toList,
              "Program log: holders_60: 120".toList,
              "Program log: lp: 1.5".toList], none⟩⟩, 1⟩⟩ :
        Option LogNotification) = some n ∧
      n.method = "logsNotification".toList ∧
      n.params.result.value.err = none ∧
      n.params.result.value.logs.any
        (fun log => containsSub log "initialize2".toList) = true :=
  normalise_acceptance_amended.1 200 _ Platform.PumpFun
    ((normalise_message 200
        (some ⟨"logsNotification".toList,
          ⟨⟨⟨["Program log: initialize2".toList,
              "Program log: mint: M1".toList,
              "Program log: creator: C1".toList,
              "Program log: holders_60: 120".toList,
              "Program log: lp: 1.5".toList], none⟩⟩, 1⟩⟩)
        Platform.PumpFun).get (by decide))
    (Option.some_get (by decide)).symm

/-! ## Claim C1 — slippage sentinel breach condition -/

theorem slipRun_cons (st : SlipState) (s : ℚ) (kr : Option ℚ)
    (rest : List (ℚ × Option ℚ)) :
    slipRun st ((s, kr) :: rest) =
      slipBreach (slipUpdate st s kr) s ::
        slipRun (slipUpdate st s kr) rest := rfl

theorem slipRun_append (st : SlipState) (l1 l2 : List (ℚ × Option ℚ)) :
    slipRun st (l1 ++ l2) =
      slipRun st l1 ++ slipRun (slipStateAfter st l1) l2 := by
  induction l1 generalizing st with
  | nil => rfl
  | cons p rest ih =>
    obtain ⟨s, kr⟩ := p
    simp only [List.cons_append, slipRun_cons]
    rw [ih]
    rfl

theorem slipRun_length (st : SlipState) (l : List (ℚ × Option ℚ)) :
    (slipRun st l).length = l.length := by
  induction l generalizing st with
  | nil => rfl
  | cons p rest ih =>
    obtain ⟨s, kr⟩ := p
    simp [slipRun_cons, ih]

theorem slipStateAfter_snoc (st : SlipState) (l : List (ℚ × Option ℚ))
    (p : ℚ × Option ℚ) :
    slipStateAfter st (l ++ [p]) =
      slipUpdate (slipStateAfter st l) p.1 p.2 := by
  simp [slipStateAfter, List.foldl_append]

/-- The `sample_count` counts the received samples. -/
theorem slipStateAfter_count (st : SlipState) (l : List (ℚ × Option ℚ)) :
    (slipStateAfter st l).sample_count = st.sample_count + l.length := by
  induction l generalizing st with
  | nil => rfl
  | cons p rest ih =>
    have h := ih (slipUpdate st p.1 p.2)
    simp only [slipStateAfter, List.foldl_cons] at h ⊢
    rw [h]
    simp [slipUpdate]
    omega

/-- The `var` is clamped at zero, so the square root is of a non-negative
number. -/
theorem slipVar_nonneg (st : SlipState) : 0 ≤ slipVar st :=
  le_max_right _ _

/-- Bridge between the squared breach test and the source's
real-arithmetic formulation: for `σ = √v`,
`k·σ > 0 ∧ s < −k·σ ⟺ k > 0 ∧ v > 0 ∧ s < 0 ∧ k²·v < s²`. -/
theorem breach_real_iff (k v s : ℚ) (hv : 0 ≤ v) :
    (0 < (k : ℝ) * Real.sqrt (v : ℚ) ∧
        (s : ℝ) < -((k : ℝ) * Real.sqrt (v : ℚ))) ↔
      (0 < k ∧ 0 < v ∧ s < 0 ∧ k ^ 2 * v < s ^ 2) := by
  have hv' : (0 : ℝ) ≤ ((v : ℚ) : ℝ) := by exact_mod_cast hv
  have hσ0 : 0 ≤ Real.sqrt ((v : ℚ) : ℝ) := Real.sqrt_nonneg _
  have hσ2 : Real.sqrt ((v : ℚ) : ℝ) * Real.sqrt ((v : ℚ) : ℝ) =
      ((v : ℚ) : ℝ) := Real.mul_self_sqrt hv'
  constructor
  · rintro ⟨hpos, hlt⟩
    have hσpos : 0 < Real.sqrt ((v : ℚ) : ℝ) := by
      rcases lt_or_eq_of_le hσ0 with h | h
      · exact h
      · rw [← h] at hpos
        simp at hpos
    have hk : 0 < (k : ℝ) := by nlinarith
    have hvpos : 0 < ((v : ℚ) : ℝ) := by nlinarith
    have hs : (s : ℝ) < 0 := by nlinarith
    have hsq : (k : ℝ) ^ 2 * ((v : ℚ) : ℝ) < (s : ℝ) ^ 2 := by nlinarith
    refine ⟨by exact_mod_cast hk, by exact_mod_cast hvpos,
      by exact_mod_cast hs, by exact_mod_cast hsq⟩
  · rintro ⟨hk, hvq, hs, hsq⟩
    have hk' : 0 < (k : ℝ) := by exact_mod_cast hk
    have hv2 : 0 < ((v : ℚ) : ℝ) := by exact_mod_cast hvq
    have hs' : (s : ℝ) < 0 := by exact_mod_cast hs
    have hsq' : (k : ℝ) ^ 2 * ((v : ℚ) : ℝ) < (s : ℝ) ^ 2 := by
      exact_mod_cast hsq
    have hσpos : 0 < Real.sqrt ((v : ℚ) : ℝ) := Real.sqrt_pos.mpr hv2
    refine ⟨mul_pos hk' hσpos, ?_⟩
    nlinarith [mul_pos hk' hσpos]

/-- The boolean breach test, spelled out. -/
theorem slipBreach_iff (st : SlipState) (s : ℚ) :
    slipBreach st s = true ↔
      (5 ≤ st.sample_count ∧ (s < 0 ∧ st.k ^ 2 * slipVar st < s ^ 2) ∧
        (0 < st.k ∧ 0 < slipVar st)) := by
  simp [slipBreach, Bool.and_eq_true, decide_eq_true_eq, and_assoc]

/-- C1: a `KillSwitch::Slippage` signal is emitted on a received sample
`s` exactly when at least 5 samples have been observed, the adaptive
threshold `k·σ` (with `σ = √max(ema2 − ema², 0)` over the 20-period EMA
with `α = 2/21`, and `k` the current multiplier) is strictly positive,
and `s < −k·σ`; and over any run of fewer than 5 samples no `Slippage`
signal is ever emitted. -/
theorem slippage_sentinel_spec (k0 : ℚ) :
    (∀ (s : ℚ) (kr : Option ℚ) (pre post : List (ℚ × Option ℚ)),
      (slipRun (slipInit k0) (pre ++ (s, kr) :: post))[pre.length]? =
          some true ↔
        (5 ≤ pre.length + 1 ∧
          0 < ((slipStateAfter (slipInit k0) (pre ++ [(s, kr)])).k : ℝ) *
            Real.sqrt (slipVar
              (slipStateAfter (slipInit k0) (pre ++ [(s, kr)])) : ℚ) ∧
          (s : ℝ) <
            -(((slipStateAfter (slipInit k0) (pre ++ [(s, kr)])).k : ℝ) *
              Real.sqrt (slipVar
                (slipStateAfter (slipInit k0) (pre ++ [(s, kr)])) : ℚ)))) ∧
    (∀ l : List (ℚ × Option ℚ), l.length < 5 →
      true ∉ slipRun (slipInit k0) l) := by
  have hmain : ∀ (s : ℚ) (kr : Option ℚ) (pre post : List (ℚ × Option ℚ)),
      (slipRun (slipInit k0) (pre ++ (s, kr) :: post))[pre.length]? =
          some true ↔
        (5 ≤ pre.length + 1 ∧
          0 < ((slipStateAfter (slipInit k0) (pre ++ [(s, kr)])).k : ℝ) *
            Real.sqrt (slipVar
              (slipStateAfter (slipInit k0) (pre ++ [(s, kr)])) : ℚ) ∧
          (s : ℝ) <
            -(((slipStateAfter (slipInit k0) (pre ++ [(s, kr)])).k : ℝ) *
              Real.sqrt (slipVar
                (slipStateAfter (slipInit k0) (pre ++ [(s, kr)])) : ℚ))) := by
    intro s kr pre post
    rw [slipRun_append, slipRun_cons,
      List.getElem?_append_right (by rw [slipRun_length]),
      slipRun_length, Nat.sub_self, List.getElem?_cons_zero,
      slipStateAfter_snoc]
    have hcount : (slipUpdate (slipStateAfter (slipInit k0) pre) s
        kr).sample_count = pre.length + 1 := by
      have h1 := slipStateAfter_count (slipInit k0) pre
      simp only [slipUpdate]
      rw [h1]
      simp [slipInit]
    rw [Option.some_inj, slipBreach_iff, hcount]
    rw [breach_real_iff _ _ s (slipVar_nonneg _)]
    tauto
  refine ⟨hmain, ?_⟩
  intro l hl hmem
  rw [List.mem_iff_getElem?] at hmem
  obtain ⟨i, hi⟩ := hmem
  have hil : i < l.length := by
    have h1 : i < (slipRun (slipInit k0) l).length :=
      (List.getElem?_eq_some.mp hi).1
    rwa [slipRun_length] at h1
  have hd : l = l.take i ++ l[i] :: l.drop (i + 1) := by
    conv_lhs => rw [← List.take_append_drop i l]
    rw [List.drop_eq_getElem_cons hil]
  have hlt : (l.take i).length = i := by
    simp [List.length_take]
    omega
  rw [hd] at hi
  rcases hp : l[i] with ⟨s, kr⟩
  rw [hp] at hi
  have h5 := ((hmain s kr (l.take i) (l.drop (i + 1))).mp
    (by rw [hlt]; exact hi)).1
  omega

/-- Witness for `slippage_sentinel_spec`: with fewer than 5 samples (a
single catastrophic −1 sample) no `Slippage` signal is emitted. -/
theorem slippage_sentinel_spec_witness :
    true ∉ slipRun (slipInit 2) [(-1, none)] :=
  (slippage_sentinel_spec 2).2 [(-1, none)] (by norm_num)

end Aniper
